import Mathlib

/-!
# Residue-code conversion (`Phase 2/pdb.cpp`)

A shallow embedding of the conversion functions of namespace `pdb`.

* `std::map<K, V>` is a list of entries kept in strictly increasing key order.
  `find` returns the entry an iterator would point at (`none` for `end()`),
  `subscript` is `operator[]`, which inserts a value-initialised entry when the
  key is absent.
* The two tables `amino3to1` and `amino1to3` are non-const globals of the
  program (the code applies `operator[]` to them), so every function takes the
  tables as an explicit state and returns the state it leaves behind.
* `std::string` is `String`, `char` is `Char`, `std::vector<std::string>` is
  `List String`, and `stringstream << char` appends one character.
-/

namespace pdb

/-! ## `std::map` -/

/-- Ordered insertion of an entry into a key-sorted list; an entry whose key is
already present is left as it is (`std::map` never duplicates a key). -/
def insertEntry {K V : Type} [LinearOrder K] (e : K × V) : List (K × V) → List (K × V)
  | [] => [e]
  | x :: xs =>
    if e.1 < x.1 then e :: x :: xs
    else if x.1 < e.1 then x :: insertEntry e xs
    else x :: xs

theorem mem_insertEntry {K V : Type} [LinearOrder K] (e y : K × V) (l : List (K × V))
    (h : y ∈ insertEntry e l) : y = e ∨ y ∈ l := by
  induction l with
  | nil => simpa [insertEntry] using h
  | cons x xs ih =>
    unfold insertEntry at h
    split_ifs at h with h1 h2
    · simpa using h
    · rcases List.mem_cons.1 h with h | h
      · exact Or.inr (by simp [h])
      · rcases ih h with h | h
        · exact Or.inl h
        · exact Or.inr (List.mem_cons_of_mem _ h)
    · exact Or.inr h

theorem pairwise_insertEntry {K V : Type} [LinearOrder K] (e : K × V) (l : List (K × V))
    (hl : l.Pairwise (fun a b => a.1 < b.1)) :
    (insertEntry e l).Pairwise (fun a b => a.1 < b.1) := by
  induction l with
  | nil => simp [insertEntry]
  | cons x xs ih =>
    have hx := List.pairwise_cons.1 hl
    unfold insertEntry
    split_ifs with h1 h2
    · refine List.pairwise_cons.2 ⟨?_, hl⟩
      intro y hy
      rcases List.mem_cons.1 hy with hy | hy
      · simpa [hy] using h1
      · exact lt_trans h1 (hx.1 y hy)
    · refine List.pairwise_cons.2 ⟨?_, ih hx.2⟩
      intro y hy
      rcases mem_insertEntry e y xs hy with hy | hy
      · simpa [hy] using h2
      · exact hx.1 y hy
    · exact hl

theorem pairwise_of_chain {K V : Type} [LinearOrder K] (l : List (K × V))
    (h : l.Chain' (fun a b => a.1 < b.1)) : l.Pairwise (fun a b => a.1 < b.1) := by
  haveI : IsTrans (K × V) (fun a b => a.1 < b.1) := ⟨fun _ _ _ h1 h2 => lt_trans h1 h2⟩
  exact List.chain'_iff_pairwise.1 h

/-- The container `std::map<K, V>`: its entries in strictly increasing key
order, so that no key occurs twice. -/
structure StdMap (K V : Type) [LinearOrder K] where
  entries : List (K × V)
  sorted : entries.Pairwise (fun a b => a.1 < b.1)

namespace StdMap

variable {K V : Type} [LinearOrder K]

/-- The member `find`: the entry with the given key, `none` standing for the
past-the-end iterator `end()`. -/
def find [DecidableEq K] (m : StdMap K V) (k : K) : Option (K × V) :=
  m.entries.find? (fun e => decide (e.1 = k))

/-- The insertion `operator[]` performs for a key that is absent. -/
def insert (m : StdMap K V) (k : K) (v : V) : StdMap K V :=
  ⟨insertEntry (k, v) m.entries, pairwise_insertEntry (k, v) m.entries m.sorted⟩

/-- The member `operator[]`: a reference to the value mapped to `k`; when `k`
is absent, an entry with the value-initialised `dflt` is inserted first. The
result is the value read and the map after the call. -/
def subscript [DecidableEq K] (m : StdMap K V) (k : K) (dflt : V) : V × StdMap K V :=
  match m.find k with
  | some e => (e.2, m)
  | none => (dflt, m.insert k dflt)

/-- The key `k` is a key of the map. -/
def HasKey (m : StdMap K V) (k : K) : Prop := k ∈ m.entries.map Prod.fst

instance [DecidableEq K] (m : StdMap K V) (k : K) : Decidable (m.HasKey k) :=
  List.instDecidableMemOfLawfulBEq k (m.entries.map Prod.fst)

end StdMap

/-! ## The program state and the conversion functions -/

/-- The two global lookup tables of the program. -/
structure Tables where
  amino3to1 : StdMap String Char
  amino1to3 : StdMap Char String

/-- Function `pdb::convert_amino_3to1`. -/
def convert_amino_3to1 (g : Tables) (amino : String) : Char × Tables :=
  match g.amino3to1.find amino with
  | some _ =>
    let r := g.amino3to1.subscript amino (Char.ofNat 0)
    (r.1, Tables.mk r.2 g.amino1to3)
  | none => ('?', g)

/-- Function `pdb::convert_amino_1to3`. -/
def convert_amino_1to3 (g : Tables) (amino : Char) : String × Tables :=
  match g.amino1to3.find amino with
  | some _ =>
    let r := g.amino1to3.subscript amino ""
    (r.1, Tables.mk g.amino3to1 r.2)
  | none => ("???", g)

/-- The range-for loop of `pdb::convert_protein_3to1`: each element is converted
and streamed into `converted_string`. -/
def convert_protein_loop (g : Tables) (converted_string : String) :
    List String → String × Tables
  | [] => (converted_string, g)
  | amino :: rest =>
    let r := convert_amino_3to1 g amino
    convert_protein_loop r.2 (converted_string.push r.1) rest

/-- Function `pdb::convert_protein_3to1`. -/
def convert_protein_3to1 (g : Tables) (aminos : List String) : String × Tables :=
  convert_protein_loop g "" aminos

/-- Modelled from the spec: the contents of the tables `amino3to1` and
`amino1to3`, which `pdb.hpp` declares and which is not part of the sources at
hand. The spec describes them as the mutually inverse mappings of the standard
20 residues between three-letter and one-letter codes. -/
def standardTables : Tables where
  amino3to1 := ⟨[("ALA", 'A'), ("ARG", 'R'), ("ASN", 'N'), ("ASP", 'D'), ("CYS", 'C'),
    ("GLN", 'Q'), ("GLU", 'E'), ("GLY", 'G'), ("HIS", 'H'), ("ILE", 'I'),
    ("LEU", 'L'), ("LYS", 'K'), ("MET", 'M'), ("PHE", 'F'), ("PRO", 'P'),
    ("SER", 'S'), ("THR", 'T'), ("TRP", 'W'), ("TYR", 'Y'), ("VAL", 'V')],
    pairwise_of_chain _ (by simp; decide)⟩
  amino1to3 := ⟨[('A', "ALA"), ('C', "CYS"), ('D', "ASP"), ('E', "GLU"), ('F', "PHE"),
    ('G', "GLY"), ('H', "HIS"), ('I', "ILE"), ('K', "LYS"), ('L', "LEU"),
    ('M', "MET"), ('N', "ASN"), ('P', "PRO"), ('Q', "GLN"), ('R', "ARG"),
    ('S', "SER"), ('T', "THR"), ('V', "VAL"), ('W', "TRP"), ('Y', "TYR")],
    pairwise_of_chain _ (by simp)⟩

/-- The table invariant of the spec: every entry of one mapping has its
inverse entry in the other. -/
def Tables.Inverse (g : Tables) : Prop :=
  (∀ e ∈ g.amino3to1.entries, (e.2, e.1) ∈ g.amino1to3.entries) ∧
  (∀ e ∈ g.amino1to3.entries, (e.2, e.1) ∈ g.amino3to1.entries)

instance (g : Tables) : Decidable g.Inverse := by
  unfold Tables.Inverse; infer_instance

/-! ## The class `protein` -/

/-- Modelled from the spec: the data members of class `pdb::protein`, which
`pdb.hpp` declares and which is not part of the sources at hand. The
constructor in `pdb.cpp` names the members `id` and `name`; the spec adds a
collection of chain structures. The type of a chain structure is not known and
is the parameter `Chain`; the collection is a standard container, empty when
default-constructed. -/
structure protein (Chain : Type) where
  id : String
  name : String
  chain_structures : List Chain

/-- The members of a `protein` object when the body of the constructor starts:
no member has an initialiser, so each is default-constructed. -/
def protein.default_members {Chain : Type} : pdb.protein Chain :=
  ⟨"", "", []⟩

set_option linter.dupNamespace false in
/-- Constructor `pdb::protein::protein`: the two assignments of its body, on the
default-constructed members. -/
def protein.protein {Chain : Type} (id name : String) : pdb.protein Chain :=
  let self : pdb.protein Chain := protein.default_members
  let self : pdb.protein Chain := ⟨id, self.name, self.chain_structures⟩
  let self : pdb.protein Chain := ⟨self.id, name, self.chain_structures⟩
  self

/-- Member function `pdb::protein::add_chain_structures`: its body is empty, so
the object it is called on is returned as it was received. -/
def protein.add_chain_structures {Chain : Type} (self : pdb.protein Chain)
    (_protein_string : String) (_chains : List String) : pdb.protein Chain :=
  self

/-! ## Lemmas on `std::map` -/

theorem find?_key_of_mem {K V : Type} [LinearOrder K] [DecidableEq K] (k : K) (v : V) :
    ∀ (l : List (K × V)), l.Pairwise (fun a b => a.1 < b.1) → (k, v) ∈ l →
      l.find? (fun e => decide (e.1 = k)) = some (k, v)
  | [], _, h => by simp at h
  | x :: xs, hs, h => by
    have hx := List.pairwise_cons.1 hs
    rcases List.mem_cons.1 h with h | h
    · subst h
      simp
    · have hlt : x.1 < k := hx.1 (k, v) h
      have hne : ¬ x.1 = k := ne_of_lt hlt
      rw [List.find?_cons_of_neg _ (by simpa using hne)]
      exact find?_key_of_mem k v xs hx.2 h

namespace StdMap

variable {K V : Type} [LinearOrder K] [DecidableEq K]

theorem find_of_mem (m : StdMap K V) (k : K) (v : V) (h : (k, v) ∈ m.entries) :
    m.find k = some (k, v) :=
  find?_key_of_mem k v m.entries m.sorted h

theorem mem_of_find (m : StdMap K V) (k : K) (e : K × V) (h : m.find k = some e) :
    e.1 = k ∧ e ∈ m.entries := by
  unfold find at h
  exact ⟨by simpa using List.find?_some h, List.mem_of_find?_eq_some h⟩

theorem find_eq_none_iff (m : StdMap K V) (k : K) : m.find k = none ↔ ¬ m.HasKey k := by
  unfold find HasKey
  rw [List.find?_eq_none]
  constructor
  · intro h hk
    obtain ⟨e, he, rfl⟩ := List.mem_map.1 hk
    exact h e he (by simp)
  · intro h e he hk
    exact h (List.mem_map.2 ⟨e, he, by simpa using hk⟩)

omit [DecidableEq K] in
theorem hasKey_iff (m : StdMap K V) (k : K) : m.HasKey k ↔ ∃ v, (k, v) ∈ m.entries := by
  unfold HasKey
  constructor
  · intro hk
    obtain ⟨e, he, rfl⟩ := List.mem_map.1 hk
    exact ⟨e.2, he⟩
  · rintro ⟨v, hv⟩
    exact List.mem_map.2 ⟨(k, v), hv, rfl⟩

theorem subscript_of_find (m : StdMap K V) (k : K) (dflt : V) (e : K × V)
    (h : m.find k = some e) : m.subscript k dflt = (e.2, m) := by
  unfold subscript
  rw [h]

theorem subscript_of_find_none (m : StdMap K V) (k : K) (dflt : V)
    (h : m.find k = none) : m.subscript k dflt = (dflt, m.insert k dflt) := by
  unfold subscript
  rw [h]

end StdMap

/-! ## The conversion functions as pure lookups -/

theorem convert_amino_3to1_eq (g : Tables) (amino : String) :
    convert_amino_3to1 g amino =
      ((match g.amino3to1.find amino with
        | some e => e.2
        | none => '?'), g) := by
  unfold convert_amino_3to1
  cases h : g.amino3to1.find amino with
  | none => rfl
  | some e => simp [StdMap.subscript_of_find _ _ _ _ h]

theorem convert_amino_1to3_eq (g : Tables) (amino : Char) :
    convert_amino_1to3 g amino =
      ((match g.amino1to3.find amino with
        | some e => e.2
        | none => "???"), g) := by
  unfold convert_amino_1to3
  cases h : g.amino1to3.find amino with
  | none => rfl
  | some e => simp [StdMap.subscript_of_find _ _ _ _ h]

theorem convert_amino_3to1_of_mem (g : Tables) (amino : String) (c : Char)
    (h : (amino, c) ∈ g.amino3to1.entries) : convert_amino_3to1 g amino = (c, g) := by
  rw [convert_amino_3to1_eq, g.amino3to1.find_of_mem amino c h]

theorem convert_amino_3to1_of_not_key (g : Tables) (amino : String)
    (h : ¬ g.amino3to1.HasKey amino) : convert_amino_3to1 g amino = ('?', g) := by
  rw [convert_amino_3to1_eq, (g.amino3to1.find_eq_none_iff amino).2 h]

theorem convert_amino_1to3_of_mem (g : Tables) (amino : Char) (s : String)
    (h : (amino, s) ∈ g.amino1to3.entries) : convert_amino_1to3 g amino = (s, g) := by
  rw [convert_amino_1to3_eq, g.amino1to3.find_of_mem amino s h]

theorem convert_amino_1to3_of_not_key (g : Tables) (amino : Char)
    (h : ¬ g.amino1to3.HasKey amino) : convert_amino_1to3 g amino = ("???", g) := by
  rw [convert_amino_1to3_eq, (g.amino1to3.find_eq_none_iff amino).2 h]

theorem convert_protein_loop_eq (g : Tables) :
    ∀ (aminos : List String) (converted_string : String),
      convert_protein_loop g converted_string aminos =
        (String.mk (converted_string.data ++ aminos.map (fun a => (convert_amino_3to1 g a).1)), g)
  | [], acc => by simp [convert_protein_loop]
  | a :: rest, acc => by
    have hg : (convert_amino_3to1 g a).2 = g := by rw [convert_amino_3to1_eq]
    unfold convert_protein_loop
    simp only [hg]
    rw [convert_protein_loop_eq g rest]
    simp [String.push]

theorem convert_protein_3to1_eq (g : Tables) (aminos : List String) :
    convert_protein_3to1 g aminos =
      (String.mk (aminos.map (fun a => (convert_amino_3to1 g a).1)), g) := by
  unfold convert_protein_3to1
  rw [convert_protein_loop_eq]
  simp

theorem convert_amino_3to1_sentinel_iff (g : Tables) (amino : String)
    (hval : ∀ e ∈ g.amino3to1.entries, e.2 ≠ '?') :
    (convert_amino_3to1 g amino).1 = '?' ↔ ¬ g.amino3to1.HasKey amino := by
  constructor
  · intro h hk
    obtain ⟨c, hc⟩ := (g.amino3to1.hasKey_iff amino).1 hk
    rw [convert_amino_3to1_of_mem g amino c hc] at h
    exact hval (amino, c) hc h
  · intro hk
    rw [convert_amino_3to1_of_not_key g amino hk]

/-! ## The claims -/

/-- C1: for every table state and every string `amino`, `convert_amino_3to1`
returns the character the three-to-one table associates with `amino` when
`amino` is a key, and the sentinel `'?'` when it is not; with the standard
residue table, `"XXX"` yields `'?'`. -/
theorem convert_amino_3to1_spec (g : Tables) (amino : String) :
    (∀ c, (amino, c) ∈ g.amino3to1.entries → (convert_amino_3to1 g amino).1 = c) ∧
    (¬ g.amino3to1.HasKey amino → (convert_amino_3to1 g amino).1 = '?') ∧
    (convert_amino_3to1 standardTables "XXX").1 = '?' := by
  refine ⟨?_, ?_, ?_⟩
  · intro c h
    rw [convert_amino_3to1_of_mem g amino c h]
  · intro h
    rw [convert_amino_3to1_of_not_key g amino h]
  · rw [convert_amino_3to1_of_not_key standardTables "XXX" (by decide)]

theorem convert_amino_3to1_spec_witness :
    (convert_amino_3to1 standardTables "TRP").1 = 'W' ∧
    (convert_amino_3to1 standardTables "trp").1 = '?' :=
  ⟨(convert_amino_3to1_spec standardTables "TRP").1 'W' (by decide),
   (convert_amino_3to1_spec standardTables "trp").2.1 (by decide)⟩

/-- C2: for every table state and every character `amino`, `convert_amino_1to3`
returns the string the one-to-three table associates with `amino` when `amino`
is a key, and the sentinel `"???"` when it is not; so `'Z'` yields `"???"`
whenever `'Z'` is not a mapped code. -/
theorem convert_amino_1to3_spec (g : Tables) (amino : Char) :
    (∀ s, (amino, s) ∈ g.amino1to3.entries → (convert_amino_1to3 g amino).1 = s) ∧
    (¬ g.amino1to3.HasKey amino → (convert_amino_1to3 g amino).1 = "???") ∧
    (¬ g.amino1to3.HasKey 'Z' → (convert_amino_1to3 g 'Z').1 = "???") := by
  refine ⟨?_, ?_, ?_⟩
  · intro s h
    rw [convert_amino_1to3_of_mem g amino s h]
  · intro h
    rw [convert_amino_1to3_of_not_key g amino h]
  · intro h
    rw [convert_amino_1to3_of_not_key g 'Z' h]

theorem convert_amino_1to3_spec_witness :
    (convert_amino_1to3 standardTables 'H').1 = "HIS" ∧
    (convert_amino_1to3 standardTables 'h').1 = "???" ∧
    (convert_amino_1to3 standardTables 'Z').1 = "???" :=
  ⟨(convert_amino_1to3_spec standardTables 'H').1 "HIS" (by decide),
   (convert_amino_1to3_spec standardTables 'h').2.1 (by decide),
   (convert_amino_1to3_spec standardTables 'Z').2.2 (by decide)⟩

/-- C3: the characters of `convert_protein_3to1 codes` are, in input order, the
results of `convert_amino_3to1` on the elements of `codes`: the `i`-th
character is the conversion of `codes[i]`, and an element that is not a key of
the table appears at its own position as `'?'`. -/
theorem convert_protein_3to1_pointwise (g : Tables) (codes : List String) :
    (convert_protein_3to1 g codes).1.data = codes.map (fun a => (convert_amino_3to1 g a).1) ∧
    (∀ (i : Nat) (a : String), codes[i]? = some a →
      (convert_protein_3to1 g codes).1.data[i]? = some (convert_amino_3to1 g a).1) ∧
    (∀ (i : Nat) (a : String), codes[i]? = some a → ¬ g.amino3to1.HasKey a →
      (convert_protein_3to1 g codes).1.data[i]? = some '?') := by
  have h1 : (convert_protein_3to1 g codes).1.data =
      codes.map (fun a => (convert_amino_3to1 g a).1) := by
    rw [convert_protein_3to1_eq]
  have h2 : ∀ (i : Nat) (a : String), codes[i]? = some a →
      (convert_protein_3to1 g codes).1.data[i]? = some (convert_amino_3to1 g a).1 := by
    intro i a hi
    rw [h1, List.getElem?_map, hi]
    rfl
  refine ⟨h1, h2, ?_⟩
  intro i a hi hk
  rw [h2 i a hi, convert_amino_3to1_of_not_key g a hk]

theorem convert_protein_3to1_pointwise_witness :
    (convert_protein_3to1 standardTables ["MET", "FOO", "", "LYSINE", "LYS"]).1.data[3]?
        = some (convert_amino_3to1 standardTables "LYSINE").1 ∧
    (convert_protein_3to1 standardTables ["MET", "FOO", "", "LYSINE", "LYS"]).1.data[1]?
        = some '?' :=
  ⟨(convert_protein_3to1_pointwise standardTables
      ["MET", "FOO", "", "LYSINE", "LYS"]).2.1 3 "LYSINE" (by decide),
   (convert_protein_3to1_pointwise standardTables
      ["MET", "FOO", "", "LYSINE", "LYS"]).2.2 1 "FOO" (by decide) (by decide)⟩

/-- C4: the length of `convert_protein_3to1 codes` is the number of elements of
`codes`, whatever strings `codes` holds. -/
theorem convert_protein_3to1_length (g : Tables) (codes : List String) :
    (convert_protein_3to1 g codes).1.length = codes.length := by
  rw [convert_protein_3to1_eq]
  simp [String.length]

/-- C5: when every entry of the three-to-one table has its inverse entry in the
one-to-three table, converting a key `c3` of the three-to-one table to its
one-letter code and back gives `c3` again. -/
theorem roundtrip_3to1_1to3 (g : Tables) (c3 : String)
    (hinv : ∀ e ∈ g.amino3to1.entries, (e.2, e.1) ∈ g.amino1to3.entries)
    (hkey : g.amino3to1.HasKey c3) :
    (convert_amino_1to3 (convert_amino_3to1 g c3).2 (convert_amino_3to1 g c3).1).1 = c3 := by
  obtain ⟨c, hc⟩ := (g.amino3to1.hasKey_iff c3).1 hkey
  rw [convert_amino_3to1_of_mem g c3 c hc]
  rw [convert_amino_1to3_of_mem g c c3 (hinv (c3, c) hc)]

theorem roundtrip_3to1_1to3_witness :
    (convert_amino_1to3 (convert_amino_3to1 standardTables "GLN").2
      (convert_amino_3to1 standardTables "GLN").1).1 = "GLN" :=
  roundtrip_3to1_1to3 standardTables "GLN" (by decide) (by decide)

/-- C6: when every entry of the one-to-three table has its inverse entry in the
three-to-one table, converting a key `c1` of the one-to-three table to its
three-letter code and back gives `c1` again. -/
theorem roundtrip_1to3_3to1 (g : Tables) (c1 : Char)
    (hinv : ∀ e ∈ g.amino1to3.entries, (e.2, e.1) ∈ g.amino3to1.entries)
    (hkey : g.amino1to3.HasKey c1) :
    (convert_amino_3to1 (convert_amino_1to3 g c1).2 (convert_amino_1to3 g c1).1).1 = c1 := by
  obtain ⟨s, hs⟩ := (g.amino1to3.hasKey_iff c1).1 hkey
  rw [convert_amino_1to3_of_mem g c1 s hs]
  rw [convert_amino_3to1_of_mem g s c1 (hinv (c1, s) hs)]

theorem roundtrip_1to3_3to1_witness :
    (convert_amino_3to1 (convert_amino_1to3 standardTables 'E').2
      (convert_amino_1to3 standardTables 'E').1).1 = 'E' :=
  roundtrip_1to3_3to1 standardTables 'E' (by decide) (by decide)

/-- C7, as stated, fails: with mutually inverse tables that hold neither the
key `"???"` nor the key `'?'`, the string `"???"` survives the round trip
although it is not a key of the three-to-one table. -/
theorem roundtrip_only_keys_counterexample :
    ¬ (∀ (g : Tables) (c : String), g.Inverse →
        ¬ g.amino3to1.HasKey "???" → ¬ g.amino1to3.HasKey '?' →
        (convert_amino_1to3 (convert_amino_3to1 g c).2 (convert_amino_3to1 g c).1).1 = c →
        g.amino3to1.HasKey c) := by
  intro h
  have hk : standardTables.amino3to1.HasKey "???" :=
    h standardTables "???" (by decide) (by decide) (by decide) (by decide)
  exact absurd hk (by decide)

/-- C7, amended: with mutually inverse tables that hold neither the key `"???"`
nor the key `'?'`, a string `c` other than the sentinel `"???"` that survives
the round trip through `convert_amino_3to1` and `convert_amino_1to3` is a key
of the three-to-one table. -/
theorem roundtrip_only_keys_or_sentinel (g : Tables) (c : String) (_hinv : g.Inverse)
    (_h3 : ¬ g.amino3to1.HasKey "???") (h1 : ¬ g.amino1to3.HasKey '?')
    (hne : c ≠ "???")
    (hrt : (convert_amino_1to3 (convert_amino_3to1 g c).2 (convert_amino_3to1 g c).1).1 = c) :
    g.amino3to1.HasKey c := by
  by_contra hk
  rw [convert_amino_3to1_of_not_key g c hk] at hrt
  rw [convert_amino_1to3_of_not_key g '?' h1] at hrt
  exact hne hrt.symm

theorem roundtrip_only_keys_or_sentinel_witness : standardTables.amino3to1.HasKey "PHE" :=
  roundtrip_only_keys_or_sentinel standardTables "PHE" (by decide) (by decide) (by decide)
    (by decide) (by decide)

/-- C8: for every table state and every input, the two tables after a call to
`convert_amino_3to1`, `convert_amino_1to3` or `convert_protein_3to1` are the
tables before the call: `operator[]` is only reached for a key that `find` has
found, where it inserts nothing. -/
theorem conversions_preserve_tables (g : Tables) (amino3 : String) (amino1 : Char)
    (aminos : List String) :
    (convert_amino_3to1 g amino3).2 = g ∧
    (convert_amino_1to3 g amino1).2 = g ∧
    (convert_protein_3to1 g aminos).2 = g := by
  refine ⟨?_, ?_, ?_⟩
  · rw [convert_amino_3to1_eq]
  · rw [convert_amino_1to3_eq]
  · rw [convert_protein_3to1_eq]

/-- C9: with a table that maps `"ALA"` to `'A'` and `"GLY"` to `'G'` and has no
key `"XXX"`, `convert_protein_3to1 ["ALA", "GLY", "XXX"]` is `"AG?"`. -/
theorem convert_protein_3to1_example (g : Tables)
    (hala : ("ALA", 'A') ∈ g.amino3to1.entries)
    (hgly : ("GLY", 'G') ∈ g.amino3to1.entries)
    (hxxx : ¬ g.amino3to1.HasKey "XXX") :
    (convert_protein_3to1 g ["ALA", "GLY", "XXX"]).1 = "AG?" := by
  rw [convert_protein_3to1_eq]
  simp only [List.map_cons, List.map_nil]
  rw [convert_amino_3to1_of_mem g "ALA" 'A' hala, convert_amino_3to1_of_mem g "GLY" 'G' hgly,
    convert_amino_3to1_of_not_key g "XXX" hxxx]

theorem convert_protein_3to1_example_witness :
    (convert_protein_3to1 standardTables ["ALA", "GLY", "XXX"]).1 = "AG?" :=
  convert_protein_3to1_example standardTables (by decide) (by decide) (by decide)

/-- C10: `convert_protein_3to1` applied to the empty sequence returns the empty
string, whatever the tables contain. -/
theorem convert_protein_3to1_nil (g : Tables) : (convert_protein_3to1 g []).1 = "" := by
  rfl

/-- C11: `add_chain_structures` leaves the protein it is called on unchanged,
whatever its arguments: the id, the name and the chain collection after the
call are those before it; so a freshly constructed `protein "1ABC" "Lysozyme"`
still has an empty chain collection after any sequence of calls. -/
theorem add_chain_structures_unchanged {Chain : Type} (p : protein Chain)
    (protein_string : String) (chains : List String) (calls : List (String × List String)) :
    p.add_chain_structures protein_string chains = p ∧
    (p.add_chain_structures protein_string chains).id = p.id ∧
    (p.add_chain_structures protein_string chains).name = p.name ∧
    (p.add_chain_structures protein_string chains).chain_structures = p.chain_structures ∧
    (calls.foldl (fun q c => q.add_chain_structures c.1 c.2)
      (protein.protein "1ABC" "Lysozyme" : protein Chain)).chain_structures = [] := by
  refine ⟨rfl, rfl, rfl, rfl, ?_⟩
  have hfold : ∀ (l : List (String × List String)) (q : protein Chain),
      l.foldl (fun q c => q.add_chain_structures c.1 c.2) q = q := by
    intro l
    induction l with
    | nil => intro q; rfl
    | cons c rest ih => intro q; exact ih (q.add_chain_structures c.1 c.2)
  rw [hfold]
  rfl

/-- C12: for all strings `id` and `name`, the empty string included, the
constructed protein holds `id` and `name` as given and an empty chain
collection. -/
theorem protein_constructor_fields {Chain : Type} (id name : String) :
    (protein.protein id name : protein Chain).id = id ∧
    (protein.protein id name : protein Chain).name = name ∧
    (protein.protein id name : protein Chain).chain_structures = [] ∧
    (protein.protein "" "" : protein Chain) = ⟨"", "", []⟩ := by
  exact ⟨rfl, rfl, rfl, rfl⟩

/-- C13: when no entry of the three-to-one table has the value `'?'`, the
`i`-th character of `convert_protein_3to1 codes` is `'?'` exactly when
`codes[i]` is not a key of the table, and the output is free of `'?'` exactly
when every element of `codes` is a key. -/
theorem sentinel_scan_exact (g : Tables) (codes : List String)
    (hval : ∀ e ∈ g.amino3to1.entries, e.2 ≠ '?') :
    (∀ (i : Nat) (a : String), codes[i]? = some a →
      ((convert_protein_3to1 g codes).1.data[i]? = some '?' ↔ ¬ g.amino3to1.HasKey a)) ∧
    ('?' ∉ (convert_protein_3to1 g codes).1.data ↔ ∀ a ∈ codes, g.amino3to1.HasKey a) := by
  have hdata : (convert_protein_3to1 g codes).1.data =
      codes.map (fun a => (convert_amino_3to1 g a).1) := by
    rw [convert_protein_3to1_eq]
  constructor
  · intro i a hi
    rw [hdata, List.getElem?_map, hi]
    simp only [Option.map_some', Option.some.injEq]
    exact convert_amino_3to1_sentinel_iff g a hval
  · rw [hdata]
    constructor
    · intro h a ha
      by_contra hk
      exact h (List.mem_map.2 ⟨a, ha, (convert_amino_3to1_sentinel_iff g a hval).2 hk⟩)
    · intro h hmem
      obtain ⟨a, ha, hq⟩ := List.mem_map.1 hmem
      exact (convert_amino_3to1_sentinel_iff g a hval).1 hq (h a ha)

theorem sentinel_scan_exact_witness :
    (∀ e ∈ standardTables.amino3to1.entries, e.2 ≠ '?') ∧
    ((convert_protein_3to1 standardTables ["SER", "???", "THR"]).1.data[1]? = some '?' ↔
      ¬ standardTables.amino3to1.HasKey "???") ∧
    ('?' ∉ (convert_protein_3to1 standardTables ["SER", "???", "THR"]).1.data ↔
      ∀ a ∈ ["SER", "???", "THR"], standardTables.amino3to1.HasKey a) :=
  ⟨by decide,
   (sentinel_scan_exact standardTables ["SER", "???", "THR"] (by decide)).1 1 "???" (by decide),
   (sentinel_scan_exact standardTables ["SER", "???", "THR"] (by decide)).2⟩

/-- C14: `convert_protein_3to1` distributes over concatenation: converting
`xs ++ ys` in one pass gives the conversion of `xs` followed by the conversion
of `ys`, also when the second conversion runs on the tables the first one left
behind. -/
theorem convert_protein_3to1_append (g : Tables) (xs ys : List String) :
    (convert_protein_3to1 g (xs ++ ys)).1 =
      (convert_protein_3to1 g xs).1 ++ (convert_protein_3to1 g ys).1 ∧
    convert_protein_3to1 g (xs ++ ys) =
      ((convert_protein_3to1 g xs).1 ++ (convert_protein_3to1 (convert_protein_3to1 g xs).2 ys).1,
        (convert_protein_3to1 (convert_protein_3to1 g xs).2 ys).2) := by
  have happ : ∀ (a b : List Char), String.mk (a ++ b) = String.mk a ++ String.mk b :=
    fun _ _ => rfl
  constructor
  · simp only [convert_protein_3to1_eq, List.map_append, happ]
  · simp only [convert_protein_3to1_eq, List.map_append, happ]

end pdb
